import Mathlib

/-!
# Verification of the acrpc schema-driven RPC library

Shallow embedding of the acrpc source (client dispatcher `createClient` /
`fillClientFetcher`, server dispatcher `createServer` / `fillRouter` /
`getInput`, the default `jsonTransformer`, and the shared path-building
traversals) together with proofs and refutations of the specification
claims.

JavaScript values exchanged over the wire are modelled by the inductive
type `Json`; `undefined` is modelled by `Option` where the distinction
matters, while the JavaScript `null` value is `Json.null`.
-/

namespace Acrpc

/-! ## JSON value model -/

mutual

/-- A JSON value (the JavaScript values the default transformer handles).
Numbers are modelled as integers. -/
inductive Json where
  | null : Json
  | bool (b : Bool) : Json
  | num (n : Int) : Json
  | str (s : String) : Json
  | arr (elems : JsonList) : Json
  | obj (fields : JsonFields) : Json
deriving DecidableEq

/-- A list of JSON values (array elements). -/
inductive JsonList where
  | nil : JsonList
  | cons (hd : Json) (tl : JsonList) : JsonList
deriving DecidableEq

/-- The ordered field list of a JSON object. -/
inductive JsonFields where
  | nil : JsonFields
  | cons (key : String) (val : Json) (tl : JsonFields) : JsonFields
deriving DecidableEq

end

/-- JavaScript truthiness of a value. -/
def jsTruthy : Json → Bool
  | .null => false
  | .bool b => b
  | .num n => n != 0
  | .str s => s ≠ ""
  | .arr _ => true
  | .obj _ => true

/-- JavaScript truthiness of a possibly-`undefined` value. -/
def jsTruthyOpt : Option Json → Bool
  | none => false
  | some j => jsTruthy j

/-! ## Characters used by the JSON wire syntax -/

/-- The double-quote character. -/
def qc : Char := Char.ofNat 34

/-- The backslash character. -/
def bs : Char := Char.ofNat 92

/-- The opening-brace character. -/
def lb : Char := Char.ofNat 123

/-- The closing-brace character. -/
def rb : Char := Char.ofNat 125

/-! ## JSON serialization (printer)

Modelled from the spec: the repository's default transformer is
`{serialize: JSON.stringify, deserialize: JSON.parse}`; the host
`JSON.stringify` is not part of the repository source, so it is modelled
here: compact printing (no whitespace), strings escaped with the
two-character escapes of JSON, integers in decimal. -/

/-- Escape a single character of a JSON string. -/
def escChar (c : Char) : List Char :=
  if c = qc then [bs, qc]
  else if c = bs then [bs, bs]
  else if c = Char.ofNat 10 then [bs, 'n']
  else if c = Char.ofNat 9 then [bs, 't']
  else if c = Char.ofNat 13 then [bs, 'r']
  else if c = Char.ofNat 8 then [bs, 'b']
  else if c = Char.ofNat 12 then [bs, 'f']
  else [c]

/-- Escape every character of a JSON string body. -/
def escList : List Char → List Char
  | [] => []
  | c :: cs => escChar c ++ escList cs

/-- Decimal digits of a natural number, most significant first. -/
def natDigits (n : Nat) : List Char :=
  if h : n < 10 then [Char.ofNat (48 + n)]
  else natDigits (n / 10) ++ [Char.ofNat (48 + n % 10)]
decreasing_by exact Nat.div_lt_self (by omega) (by omega)

/-- Decimal representation of an integer. -/
def intChars (n : Int) : List Char :=
  if n < 0 then '-' :: natDigits n.natAbs else natDigits n.toNat

mutual

/-- Compact JSON printing of a value (model of `JSON.stringify`). -/
def printJson : Json → List Char
  | .null => "null".data
  | .bool b => if b then "true".data else "false".data
  | .num n => intChars n
  | .str s => qc :: (escList s.data ++ [qc])
  | .arr xs => '[' :: printElems xs
  | .obj fs => lb :: printFields fs

/-- Print array elements followed by the closing bracket. -/
def printElems : JsonList → List Char
  | .nil => [']']
  | .cons h t => printJson h ++ printElemsTail t

/-- Print the remaining array elements, each preceded by a comma. -/
def printElemsTail : JsonList → List Char
  | .nil => [']']
  | .cons h t => ',' :: (printJson h ++ printElemsTail t)

/-- Print object fields followed by the closing brace. -/
def printFields : JsonFields → List Char
  | .nil => [rb]
  | .cons k v t =>
      qc :: (escList k.data ++ (qc :: ':' :: (printJson v ++ printFieldsTail t)))

/-- Print the remaining object fields, each preceded by a comma. -/
def printFieldsTail : JsonFields → List Char
  | .nil => [rb]
  | .cons k v t =>
      ',' :: qc :: (escList k.data ++ (qc :: ':' :: (printJson v ++ printFieldsTail t)))

end

/-! ## JSON deserialization (parser)

Modelled from the spec: the host `JSON.parse` is not part of the
repository source; it is modelled here as a recursive-descent parser for
the compact grammar the printer emits (no interstitial whitespace, the
two-character string escapes, integer numerals). -/

/-- Unescape the character following a backslash in a JSON string. -/
def unescChar (c : Char) : Option Char :=
  if c = qc then some qc
  else if c = bs then some bs
  else if c = '/' then some '/'
  else if c = 'n' then some (Char.ofNat 10)
  else if c = 't' then some (Char.ofNat 9)
  else if c = 'r' then some (Char.ofNat 13)
  else if c = 'b' then some (Char.ofNat 8)
  else if c = 'f' then some (Char.ofNat 12)
  else none

/-- Parse the body of a JSON string after the opening quote; returns the
decoded characters and the input remaining after the closing quote. -/
def parseStringBody : List Char → Option (List Char × List Char)
  | [] => none
  | c :: cs =>
    if c = qc then some ([], cs)
    else if c = bs then
      match cs with
      | [] => none
      | e :: cs2 =>
        match unescChar e, parseStringBody cs2 with
        | some c2, some (l, r) => some (c2 :: l, r)
        | _, _ => none
    else
      match parseStringBody cs with
      | some (l, r) => some (c :: l, r)
      | none => none

/-- Split a leading run of decimal digits off the input. -/
def takeDigits : List Char → List Char × List Char
  | [] => ([], [])
  | c :: cs =>
    if c.isDigit then
      let p := takeDigits cs
      (c :: p.1, p.2)
    else ([], c :: cs)

/-- Numeric value of a digit list, accumulator style. -/
def digitsVal : Nat → List Char → Nat
  | acc, [] => acc
  | acc, c :: cs => digitsVal (acc * 10 + (c.toNat - 48)) cs

/-- Parse an integer numeral (optional minus sign, then digits). -/
def parseNumber (cs : List Char) : Option (Json × List Char) :=
  match cs with
  | [] => none
  | c :: r =>
    if c = '-' then
      let p := takeDigits r
      if p.1 = [] then none else some (.num (-(Int.ofNat (digitsVal 0 p.1))), p.2)
    else
      let p := takeDigits (c :: r)
      if p.1 = [] then none else some (.num (Int.ofNat (digitsVal 0 p.1)), p.2)

/-- The input does not begin with a decimal digit (so a numeral before
it cannot absorb it). -/
def noDigitStart : List Char → Bool
  | [] => true
  | c :: _ => !c.isDigit

mutual

/-- Fueled JSON value parser (model of `JSON.parse`, one value). -/
def parseJson : Nat → List Char → Option (Json × List Char)
  | 0, _ => none
  | _ + 1, [] => none
  | fuel + 1, c :: cs =>
    if c = 'n' then
      match cs with
      | 'u' :: 'l' :: 'l' :: r => some (.null, r)
      | _ => none
    else if c = 't' then
      match cs with
      | 'r' :: 'u' :: 'e' :: r => some (.bool true, r)
      | _ => none
    else if c = 'f' then
      match cs with
      | 'a' :: 'l' :: 's' :: 'e' :: r => some (.bool false, r)
      | _ => none
    else if c = qc then
      match parseStringBody cs with
      | some (l, r) => some (.str (String.mk l), r)
      | none => none
    else if c = '[' then
      match parseElems fuel cs with
      | some (xs, r) => some (.arr xs, r)
      | none => none
    else if c = lb then
      match parseFields fuel cs with
      | some (fs, r) => some (.obj fs, r)
      | none => none
    else if c = '-' || c.isDigit then parseNumber (c :: cs)
    else none

/-- Parse array elements after the opening bracket. -/
def parseElems : Nat → List Char → Option (JsonList × List Char)
  | 0, _ => none
  | _ + 1, [] => none
  | fuel + 1, c :: cs =>
    if c = ']' then some (.nil, cs)
    else
      match parseJson fuel (c :: cs) with
      | some (v, r) =>
        match parseElemsTail fuel r with
        | some (t, r2) => some (.cons v t, r2)
        | none => none
      | none => none

/-- Parse the array elements remaining after one parsed element. -/
def parseElemsTail : Nat → List Char → Option (JsonList × List Char)
  | 0, _ => none
  | _ + 1, [] => none
  | fuel + 1, c :: cs =>
    if c = ']' then some (.nil, cs)
    else if c = ',' then
      match parseJson fuel cs with
      | some (v, r) =>
        match parseElemsTail fuel r with
        | some (t, r2) => some (.cons v t, r2)
        | none => none
      | none => none
    else none

/-- Parse one object field (key, colon, value) and then the remaining
fields. -/
def parseField1 : Nat → List Char → Option (JsonFields × List Char)
  | 0, _ => none
  | _ + 1, [] => none
  | fuel + 1, c :: cs =>
    if c = qc then
      match parseStringBody cs with
      | some (k, r) =>
        match r with
        | c2 :: r2 =>
          if c2 = ':' then
            match parseJson fuel r2 with
            | some (v, r3) =>
              match parseFieldsTail fuel r3 with
              | some (t, r4) => some (.cons (String.mk k) v t, r4)
              | none => none
            | none => none
          else none
        | [] => none
      | none => none
    else none

/-- Parse object fields after the opening brace. -/
def parseFields : Nat → List Char → Option (JsonFields × List Char)
  | 0, _ => none
  | _ + 1, [] => none
  | fuel + 1, c :: cs =>
    if c = rb then some (.nil, cs) else parseField1 fuel (c :: cs)

/-- Parse the object fields remaining after one parsed field. -/
def parseFieldsTail : Nat → List Char → Option (JsonFields × List Char)
  | 0, _ => none
  | _ + 1, [] => none
  | fuel + 1, c :: cs =>
    if c = rb then some (.nil, cs)
    else if c = ',' then parseField1 fuel cs
    else none

end

/-! ## Size measures (fuel bounds for the parser) -/

mutual

/-- Structural size of a JSON value, used as a parser fuel bound. -/
def jsize : Json → Nat
  | .arr xs => 1 + lsize xs
  | .obj fs => 2 + fsize fs
  | _ => 1

/-- Structural size of an array element list. -/
def lsize : JsonList → Nat
  | .nil => 1
  | .cons h t => 1 + jsize h + lsize t

/-- Structural size of an object field list. -/
def fsize : JsonFields → Nat
  | .nil => 1
  | .cons _ v t => 2 + jsize v + fsize t

end

/-! ## Supported values

A value the default JSON transformer can represent: every string (value
or object key) avoids control characters other than the named escapes,
and object keys are pairwise distinct. -/

/-- A character representable without a numeric escape in the model. -/
def supportedChar (c : Char) : Bool :=
  decide (32 ≤ c.val) || c = Char.ofNat 10 || c = Char.ofNat 9 ||
    c = Char.ofNat 13 || c = Char.ofNat 8 || c = Char.ofNat 12

/-- No duplicates in a key list. -/
def noDup : List String → Bool
  | [] => true
  | x :: xs => (!xs.contains x) && noDup xs

/-- Keys of an object field list. -/
def fieldKeys : JsonFields → List String
  | .nil => []
  | .cons k _ t => k :: fieldKeys t

mutual

/-- The value is representable by the default JSON transformer. -/
def supported : Json → Bool
  | .null => true
  | .bool _ => true
  | .num _ => true
  | .str s => s.data.all supportedChar
  | .arr xs => supportedList xs
  | .obj fs => noDup (fieldKeys fs) && supportedFields fs

/-- All elements are supported. -/
def supportedList : JsonList → Bool
  | .nil => true
  | .cons h t => supported h && supportedList t

/-- All keys and values are supported. -/
def supportedFields : JsonFields → Bool
  | .nil => true
  | .cons k v t => k.data.all supportedChar && supported v && supportedFields t

end

/-! ## The default transformer -/

/-- A transformer pairing a serializer with a deserializer over the JSON
value model; `deserialize` yields `none` where `JSON.parse` throws. -/
structure JTransformer where
  serialize : Json → String
  deserialize : String → Option Json

/-- The repository's default transformer `jsonTransformer`
(`{serialize: JSON.stringify, deserialize: JSON.parse}`), with the two
host functions modelled as above. -/
def jsonTransformer : JTransformer :=
  { serialize := fun j => String.mk (printJson j)
    deserialize := fun s =>
      match parseJson (2 * s.data.length + 2) s.data with
      | some (j, []) => some j
      | _ => none }

/-! ## Validator capability and schema endpoints -/

/-- One step of a validator issue path (zod paths mix keys and indices). -/
inductive PathKey where
  | key (s : String)
  | idx (n : Nat)
deriving DecidableEq

/-- One structured issue from a validator failure report. -/
structure Issue where
  path : List PathKey
  message : String
deriving DecidableEq

/-- Result of a validator's `safeParse`. -/
inductive VParseResult where
  | ok (data : Json)
  | err (issues : List Issue)

/-- The opaque validator capability: `safeParse` on a value. -/
def Validator := Json → VParseResult

/-- An endpoint's `input`/`output` slot: a validator, `null`, or
`undefined`. -/
inductive VSpec where
  | null
  | undef
  | schema (v : Validator)

/-- True exactly when the slot holds a validator (JavaScript truthiness of
the slot; `null` and `undefined` are falsy). -/
def VSpec.isSchema : VSpec → Bool
  | .schema _ => true
  | _ => false

/-- A schema endpoint: input/output slots and behavior flags (`none`
models an absent optional property). -/
structure SchemaEndpoint where
  input : VSpec
  output : VSpec
  isMetadataUsed : Option Bool := none
  isMetadataRequired : Option Bool := none
  cacheControl : Option String := none

/-! ## Schema and handler trees

`Object.entries` order is significant in the source, so schema nodes are
modelled as ordered entry lists; an entry value is either an endpoint
(the duck-typed `isEndpoint` case) or a nested subtree (a route or a
nested schema). -/

/-- A schema tree: an ordered list of named entries. -/
inductive SchemaTree where
  | nil : SchemaTree
  | consEndpoint (name : String) (e : SchemaEndpoint) (rest : SchemaTree) : SchemaTree
  | consTree (name : String) (child : SchemaTree) (rest : SchemaTree) : SchemaTree

/-- A schema entry value as seen by property lookup. -/
inductive SchemaEntry where
  | endpoint (e : SchemaEndpoint)
  | tree (t : SchemaTree)

/-- Property lookup `schema[name]`; `none` models `undefined`. -/
def SchemaTree.lookup : SchemaTree → String → Option SchemaEntry
  | .nil, _ => none
  | .consEndpoint n e r, name =>
      if n = name then some (.endpoint e) else SchemaTree.lookup r name
  | .consTree n t r, name =>
      if n = name then some (.tree t) else SchemaTree.lookup r name

/-- A handler tree: each entry is a handler function (identified by a
tag) or a nested subtree. -/
inductive HandlerTree where
  | nil : HandlerTree
  | consFn (name : String) (h : Nat) (rest : HandlerTree) : HandlerTree
  | consTree (name : String) (child : HandlerTree) (rest : HandlerTree) : HandlerTree

/-! ## Path derivation (shared by both dispatchers) -/

/-- `Array.prototype.join` with separator `"/"`. -/
def joinSlash : List String → String
  | [] => ""
  | [x] => x
  | x :: y :: xs => x ++ "/" ++ joinSlash (y :: xs)

/-- `["", ...names].join("/")` of the source. -/
def pathJoin (names : List String) : String :=
  joinSlash ("" :: names)

/-- The canonical path of an endpoint whose ancestor keys are `keys`,
under the name normalizer `kebab`. -/
def derivedPath (kebab : String → String) (keys : List String) : String :=
  pathJoin (keys.map kebab)

/-! ## Client dispatcher traversal (`fillClientFetcher`) -/

/-- One callable produced by the client dispatcher: the raw ancestor keys
of its position, the method key, the derived path and the endpoint. -/
structure ClientReg where
  keys : List String
  method : String
  path : String
  endpoint : SchemaEndpoint

/-- The client traversal: walks the schema, accumulating normalized name
segments, and produces one callable per endpoint with the path
`["", ...names].join("/")`. `keys` tracks the raw ancestor keys (the
nesting of the produced fetcher object). -/
def fillClientFetcher (kebab : String → String) :
    SchemaTree → List String → List String → List ClientReg
  | .nil, _, _ => []
  | .consEndpoint name e rest, names, keys =>
      ⟨keys, name, pathJoin names, e⟩ :: fillClientFetcher kebab rest names keys
  | .consTree name t rest, names, keys =>
      fillClientFetcher kebab t (names ++ [kebab name]) (keys ++ [name]) ++
        fillClientFetcher kebab rest names keys

/-! ## Server dispatcher traversal (`fillRouter`) -/

/-- One route registration performed by the server dispatcher. `handler`
is the handler tag for a function entry, `none` when a non-function
value was registered as the callback. -/
structure RouteReg where
  keys : List String
  method : String
  path : String
  handler : Option Nat

/-- The server traversal: walks the handler tree, looking each entry up
in the schema. Registers a route for every entry whose schema value is
duck-typed as an endpoint, otherwise recurses with `schema[name]` (which
may be `undefined`, modelled as `none`). The boolean is `true` when the
traversal throws a `TypeError` (property read on `undefined`), which
aborts the remaining iteration; registrations performed before the throw
are kept (they already mutated the router). -/
def fillRouter (kebab : String → String) :
    Option SchemaTree → HandlerTree → List String → List String →
      List RouteReg × Bool
  | _, .nil, _, _ => ([], false)
  | none, .consFn _ _ _, _, _ => ([], true)
  | none, .consTree _ _ _, _, _ => ([], true)
  | some s, .consFn name h rest, names, keys =>
    match s.lookup name with
    | some (.endpoint _) =>
        let p := fillRouter kebab (some s) rest names keys
        (⟨keys, name, pathJoin names, some h⟩ :: p.1, p.2)
    | some (.tree _) => fillRouter kebab (some s) rest names keys
    | none => fillRouter kebab (some s) rest names keys
  | some s, .consTree name ht rest, names, keys =>
    match s.lookup name with
    | some (.endpoint _) =>
        let p := fillRouter kebab (some s) rest names keys
        (⟨keys, name, pathJoin names, none⟩ :: p.1, p.2)
    | some (.tree t) =>
        let p1 := fillRouter kebab (some t) ht (names ++ [kebab name]) (keys ++ [name])
        if p1.2 then p1
        else
          let p2 := fillRouter kebab (some s) rest names keys
          (p1.1 ++ p2.1, p2.2)
    | none =>
        let p1 := fillRouter kebab none ht (names ++ [kebab name]) (keys ++ [name])
        if p1.2 then p1
        else
          let p2 := fillRouter kebab (some s) rest names keys
          (p1.1 ++ p2.1, p2.2)

/-! ## Server per-request pipeline (`getInput` and the route callback) -/

/-- The pluggable transformer capability used by both dispatchers,
restricted to inputs where deserialization succeeds. -/
structure Tr where
  serialize : Json → String
  deserialize : String → Json

/-- The request fields the pipeline reads: the verb, the reserved
`__body` query parameter, and the raw text body (as produced by the text
middleware for non-GET verbs); `none`/empty model an absent (falsy)
value. -/
structure Req where
  method : String
  queryBody : Option String
  body : Option String

/-- Hexadecimal value of a character, if any. -/
def hexVal (c : Char) : Option Nat :=
  if c.isDigit then some (c.toNat - 48)
  else if 65 ≤ c.toNat && c.toNat ≤ 70 then some (c.toNat - 55)
  else if 97 ≤ c.toNat && c.toNat ≤ 102 then some (c.toNat - 87)
  else none

/-- Percent-decoding of a character list; malformed escapes are kept
literally. -/
def percentDecode : List Char → List Char
  | '%' :: a :: b :: rest =>
    (match hexVal a, hexVal b with
      | some x, some y => Char.ofNat (16 * x + y) :: percentDecode rest
      | _, _ => '%' :: percentDecode (a :: b :: rest))
  | c :: rest => c :: percentDecode rest
  | [] => []

/-- Modelled from the spec: the host `decodeURIComponent` (URL-decoding
of the reserved query parameter), restricted to single-byte escapes. -/
def decodeURIComponent (s : String) : String :=
  String.mk (percentDecode s.data)

/-- A character `encodeURIComponent` leaves unescaped. -/
def unreservedChar (c : Char) : Bool :=
  c.isAlphanum || c = '-' || c = '_' || c = '.' || c = '!' || c = '~' ||
    c = '*' || c = Char.ofNat 39 || c = '(' || c = ')'

/-- Upper-case hexadecimal digit. -/
def hexDigitChar (n : Nat) : Char :=
  if n < 10 then Char.ofNat (48 + n) else Char.ofNat (55 + n)

/-- Percent-encoding of one character (single-byte model). -/
def percentEncodeChar (c : Char) : List Char :=
  if unreservedChar c then [c]
  else ['%', hexDigitChar (c.toNat / 16 % 16), hexDigitChar (c.toNat % 16)]

/-- Modelled from the spec: the host `encodeURIComponent` (URL-encoding
of the serialized GET payload), restricted to single-byte characters. -/
def encodeURIComponent (s : String) : String :=
  String.mk (s.data.flatMap percentEncodeChar)

/-- The wire payload string obtained by `getInput` before the absence
check: for GET the URL-decoded `__body` query parameter, otherwise the
raw request body; `none` models a falsy (absent or empty) payload. -/
def wirePayload (req : Req) : Option String :=
  if req.method = "GET" then
    match req.queryBody with
    | some s => if s = "" then none else some (decodeURIComponent s)
    | none => none
  else
    match req.body with
    | some s => if s = "" then none else some s
    | none => none

/-- A server error response body: an `{error}` object or an issue list. -/
inductive ErrBody where
  | errObj (error : String)
  | issueList (issues : List Issue)
deriving DecidableEq

/-- Result of `getInput`: the value for the handler, or an early
response. -/
inductive InputParseResult where
  | success (data : Json)
  | failure (status : Nat) (response : ErrBody)
deriving DecidableEq

/-- The source's `getInput`: reads the wire payload, rejects a missing
payload when a validator is declared, deserializes a present payload,
and validates when a validator is declared. -/
def getInput (req : Req) (inputSchema : VSpec) (transformer : Tr) :
    InputParseResult :=
  let body := wirePayload req
  match inputSchema, body with
  | .schema _, none =>
      .failure 400 (.errObj
        (if req.method = "GET" then "No __body provided" else "No body provided"))
  | _, _ =>
    let rawInput : Json :=
      match body with
      | some s => transformer.deserialize s
      | none => Json.null
    match inputSchema with
    | .schema v =>
      match v rawInput with
      | .ok d => .success d
      | .err issues =>
          .failure 400 (.issueList (issues.map fun i => ⟨i.path, i.message⟩))
    | _ => .success rawInput

/-- Response body written by the route callback. -/
inductive RespBody where
  | json (b : ErrBody)
  | zodError (issues : List Issue)
  | text (s : String)
deriving DecidableEq

/-- The observable response of one request. -/
structure SResponse where
  status : Nat
  body : RespBody
  cacheControl : Option String
deriving DecidableEq

/-- The outcome of the route callback: the response written, plus a
record of whether (and with which first and second arguments) the bound
handler was invoked. -/
structure RequestResult where
  response : SResponse
  handlerCalledWith : Option (Json × Option Json)
deriving DecidableEq

/-- The metadata value flowing to the guard and the handler
(`getMetadata?.(req, isMetadataRequired) ?? null` when metadata is
used). -/
def metadataOf (getMetadata : Option (Req → Bool → Option Json))
    (req : Req) (isUsed isRequired : Bool) : Option Json :=
  if isUsed then
    match getMetadata with
    | some f => f req isRequired
    | none => none
  else none

/-- True when the metadata guard rejects the request with 400. -/
def metadataBlocks (e : SchemaEndpoint)
    (getMetadata : Option (Req → Bool → Option Json)) (req : Req) : Bool :=
  e.isMetadataUsed.getD true && e.isMetadataRequired.getD true &&
    !jsTruthyOpt (metadataOf getMetadata req (e.isMetadataUsed.getD true)
      (e.isMetadataRequired.getD true))

/-- The route callback registered by `fillRouter` for one endpoint, for
requests where the handler does not itself write to the response: the
metadata guard, `getInput`, handler invocation, output validation and
serialization, and response finalization. -/
def handleRequest (method : String) (e : SchemaEndpoint)
    (handler : Json → Option Json → Json)
    (getMetadata : Option (Req → Bool → Option Json))
    (transformer : Tr) (req : Req) : RequestResult :=
  let okStatus := if method = "post" then 201 else 200
  let metadata := metadataOf getMetadata req (e.isMetadataUsed.getD true)
    (e.isMetadataRequired.getD true)
  if metadataBlocks e getMetadata req then
    ⟨⟨400, .json (.errObj "Metadata cannot be parsed."), none⟩, none⟩
  else
    match getInput req e.input transformer with
    | .failure st resp => ⟨⟨st, .json resp, none⟩, none⟩
    | .success data =>
      let rawOutput := handler data metadata
      let cc : Option String :=
        match e.cacheControl with
        | some s => if s = "" then none else some s
        | none => none
      match e.output with
      | .schema v =>
        match v rawOutput with
        | .err issues => ⟨⟨500, .zodError issues, none⟩, some (data, metadata)⟩
        | .ok d =>
            ⟨⟨okStatus, .text (transformer.serialize d), cc⟩, some (data, metadata)⟩
      | .undef =>
          ⟨⟨okStatus, .text (transformer.serialize rawOutput), cc⟩,
            some (data, metadata)⟩
      | .null => ⟨⟨okStatus, .text "", cc⟩, some (data, metadata)⟩

/-! ## Client per-call pipeline (`createClient` callable) -/

/-- The per-call init object: the fields the dispatcher reads or writes
(`none` models an absent property). -/
structure InitModel where
  fetch : Option Nat := none
  skipInterceptor : Bool := false
  headers : List (String × String) := []
  body : Option String := none
deriving DecidableEq

/-- Set a key in an association list, replacing an existing binding. -/
def setKV : List (String × String) → String → String → List (String × String)
  | [], k, v => [(k, v)]
  | (k0, v0) :: rest, k, v =>
      if k0 = k then (k, v) :: rest else (k0, v0) :: setKV rest k v

/-- Object-spread merge of two header maps (later entries override). -/
def mergeKV (base over : List (String × String)) : List (String × String) :=
  over.foldl (fun acc p => setKV acc p.1 p.2) base

/-- The request handed to the fetch capability. -/
structure BuiltRequest where
  url : String
  method : String
  headers : List (String × String)
  body : Option String
  fetchUsed : Nat
deriving DecidableEq

/-- What the callable does before any network activity: reject, or build
and send one request. -/
inductive ClientOutcome where
  | invalidArgument (message : String)
  | request (r : BuiltRequest)
deriving DecidableEq

/-- Result of one client call up to the fetch: the outcome and the state
of the caller's own init object afterwards (the dispatcher deletes
`fetch` from the aliased init of input-taking endpoints). -/
structure ClientCallResult where
  outcome : ClientOutcome
  callerInit : Option InitModel
deriving DecidableEq

/-- The callable synthesized by `createClient` for one endpoint, up to
the fetch call: `parseArgs`, the missing-input check, init merging,
payload serialization (query parameter for GET, body plus Content-Type
otherwise), fetch selection and the `delete init?.fetch` mutation. -/
def clientCall (inputDecl : VSpec) (method entrypointUrl path : String)
    (baseInit : InitModel) (baseFetch : Nat) (transformer : Tr)
    (inputArg : Option Json) (initArg : Option InitModel) : ClientCallResult :=
  let input : Option Json :=
    match inputDecl with
    | .null => none
    | _ => inputArg
  let init : Option InitModel :=
    match inputDecl with
    | .null => some (initArg.getD {})
    | _ => initArg
  let aliased : Bool :=
    match inputDecl with
    | .null => false
    | _ => true
  if inputDecl.isSchema && !jsTruthyOpt input then
    ⟨.invalidArgument "Input data argument not provided.", initArg⟩
  else
    let headers0 := mergeKV baseInit.headers ((init.map InitModel.headers).getD [])
    let body0 : Option String := (init.bind InitModel.body).orElse (fun _ => baseInit.body)
    let step : String × List (String × String) × Option String :=
      match inputDecl, input with
      | .null, _ => ("", headers0, body0)
      | _, none => ("", headers0, body0)
      | _, some j =>
        let serializedInput := transformer.serialize j
        if method = "get" then
          ("__body=" ++ encodeURIComponent serializedInput, headers0, body0)
        else
          ("", setKV headers0 "Content-Type" "application/json", some serializedInput)
    let fetchUsed := (init.bind InitModel.fetch).getD baseFetch
    let search := if step.1 = "" then "" else "?" ++ step.1
    { outcome := .request
        { url := entrypointUrl ++ path ++ search
          method := method.toUpper
          headers := step.2.1
          body := step.2.2
          fetchUsed := fetchUsed }
      callerInit :=
        if aliased then initArg.map (fun i => { i with fetch := none }) else initArg }

/-! ## Client response interpretation (`HttpError`) -/

/-- The typed transport error raised on a non-2xx response. -/
structure HttpError where
  method : String
  url : String
  status : Nat
  description : String
deriving DecidableEq

/-- A single-quote character as a string. -/
def squote : String := String.mk [Char.ofNat 39]

/-- The message built by the `HttpError` constructor. -/
def HttpError.message (e : HttpError) : String :=
  "Fetch at " ++ e.method.toUpper ++ " " ++ e.url ++ " failed, status " ++
    toString e.status ++ ", description: " ++ squote ++ e.description ++ squote

/-- The response fields the callable reads. -/
structure RespModel where
  ok : Bool
  status : Nat
  statusText : String
  text : String
deriving DecidableEq

/-- Interpretation of the fetch response: deserialized output (or null)
on 2xx, a typed transport error otherwise. -/
inductive CallOutcome where
  | success (output : Json)
  | httpError (e : HttpError)
deriving DecidableEq

/-- The response-interpretation tail of the callable: on success reads
and deserializes the body unless output is declared null; on failure
raises `HttpError` with the body text, falling back to the status
text. -/
def interpretResponse (method path : String) (outputDecl : VSpec)
    (transformer : Tr) (resp : RespModel) : CallOutcome :=
  if resp.ok then
    .success
      (match outputDecl with
        | .null => Json.null
        | _ => transformer.deserialize resp.text)
  else
    .httpError
      ⟨method, path, resp.status,
        if resp.text = "" then resp.statusText else resp.text⟩

/-! ## Concrete instances for witnesses and counterexamples -/

/-- An example name normalizer: lowerCamelCase to kebab-case. -/
def kebabExample (s : String) : String :=
  String.mk (s.data.flatMap fun c => if c.isUpper then ['-', c.toLower] else [c])

/-- A transformer that tags deserialized strings (used to observe
deserialization). -/
def trTag : Tr := ⟨fun _ => "s", fun s => Json.str s⟩

/-- A transformer whose deserializer is constantly null. -/
def trNull : Tr := ⟨fun _ => "s", fun _ => Json.null⟩

/-- A validator that always fails with one issue. -/
def vRequireName : Validator :=
  fun _ => .err [⟨[.key "name"], "Required"⟩]

/-- A validator that accepts every value unchanged. -/
def vAccept : Validator := fun j => .ok j

/-- A handler returning null. -/
def hNull : Json → Option Json → Json := fun _ _ => Json.null

/-- Example schema: `{ users: { get: endpoint } }`. -/
def schemaEx : SchemaTree :=
  .consTree "users" (.consEndpoint "get" { input := .null, output := .undef } .nil) .nil

/-- Handler tree with an orphan subtree entry `typo` before a valid
`users` entry. -/
def handlersEx : HandlerTree :=
  .consTree "typo" (.consFn "get" 1 .nil) (.consTree "users" (.consFn "get" 2 .nil) .nil)

/-- A GET request carrying `__body=x`. -/
def reqGetWithBody : Req := ⟨"GET", some "x", none⟩

/-- A GET request with no `__body` parameter. -/
def reqGetNoBody : Req := ⟨"GET", none, none⟩

/-- An endpoint with `input: null` and metadata disabled. -/
def epNullInput : SchemaEndpoint :=
  { input := .null, output := .undef, isMetadataUsed := some false }

/-- An endpoint with `input: undefined` (declared, validation disabled)
and metadata disabled. -/
def epUndefInput : SchemaEndpoint :=
  { input := .undef, output := .undef, isMetadataUsed := some false }

/-- A per-call init object carrying a custom fetch implementation. -/
def initWithFetch : InitModel := { fetch := some 5 }

/-! # Theorems -/

/-! ## Path derivation (claim C1) -/

theorem pathJoin_nil : pathJoin [] = "" := rfl

theorem pathJoin_cons (a : String) (l : List String) :
    pathJoin (a :: l) = "/" ++ joinSlash (a :: l) := rfl

/-- Every callable the client traversal produces derives its path as the
canonical function of its raw ancestor keys. -/
theorem fillClientFetcher_path (kebab : String → String) (t : SchemaTree) :
    ∀ (names keys : List String), names = keys.map kebab →
      ∀ r ∈ fillClientFetcher kebab t names keys,
        r.path = derivedPath kebab r.keys := by
  induction t with
  | nil => intro names keys hnk r hr; simp [fillClientFetcher] at hr
  | consEndpoint name e rest ih =>
      intro names keys hnk r hr
      simp only [fillClientFetcher, List.mem_cons] at hr
      rcases hr with rfl | hr
      · simp [derivedPath, hnk]
      · exact ih names keys hnk r hr
  | consTree name child rest ih1 ih2 =>
      intro names keys hnk r hr
      simp only [fillClientFetcher, List.mem_append] at hr
      rcases hr with hr | hr
      · exact ih1 (names ++ [kebab name]) (keys ++ [name]) (by simp [hnk]) r hr
      · exact ih2 names keys hnk r hr

/-- Every route the server traversal registers derives its path as the
canonical function of its raw ancestor keys. -/
theorem fillRouter_path (kebab : String → String) (ht : HandlerTree) :
    ∀ (os : Option SchemaTree) (names keys : List String),
      names = keys.map kebab →
      ∀ r ∈ (fillRouter kebab os ht names keys).1,
        r.path = derivedPath kebab r.keys := by
  induction ht with
  | nil => intro os names keys hnk r hr; simp [fillRouter] at hr
  | consFn name h rest ih =>
      intro os names keys hnk r hr
      cases os with
      | none => simp [fillRouter] at hr
      | some s =>
        cases hl : s.lookup name with
        | none =>
            simp only [fillRouter, hl] at hr
            exact ih (some s) names keys hnk r hr
        | some se =>
            cases se with
            | endpoint e =>
                simp only [fillRouter, hl, List.mem_cons] at hr
                rcases hr with rfl | hr
                · simp [derivedPath, hnk]
                · exact ih (some s) names keys hnk r hr
            | tree t =>
                simp only [fillRouter, hl] at hr
                exact ih (some s) names keys hnk r hr
  | consTree name child rest ih1 ih2 =>
      intro os names keys hnk r hr
      cases os with
      | none => simp [fillRouter] at hr
      | some s =>
        cases hl : s.lookup name with
        | none =>
            simp only [fillRouter, hl] at hr
            split at hr
            · exact ih1 none (names ++ [kebab name]) (keys ++ [name]) (by simp [hnk]) r hr
            · simp only [List.mem_append] at hr
              rcases hr with hr | hr
              · exact ih1 none (names ++ [kebab name]) (keys ++ [name]) (by simp [hnk]) r hr
              · exact ih2 (some s) names keys hnk r hr
        | some se =>
            cases se with
            | endpoint e =>
                simp only [fillRouter, hl, List.mem_cons] at hr
                rcases hr with rfl | hr
                · simp [derivedPath, hnk]
                · exact ih2 (some s) names keys hnk r hr
            | tree t =>
                simp only [fillRouter, hl] at hr
                split at hr
                · exact ih1 (some t) (names ++ [kebab name]) (keys ++ [name]) (by simp [hnk]) r hr
                · simp only [List.mem_append] at hr
                  rcases hr with hr | hr
                  · exact ih1 (some t) (names ++ [kebab name]) (keys ++ [name]) (by simp [hnk]) r hr
                  · exact ih2 (some s) names keys hnk r hr

/-- C1: for every schema tree and every chain of nested keys leading to
an endpoint, the URL path derived by the client dispatcher equals the
one derived by the server dispatcher: both equal the join of `""` and
the kebab-normalized ancestor keys with `"/"`, i.e. `"/"` plus the
normalized keys joined by `"/"` for a non-empty chain, and `""` for a
root-level endpoint; the two path-building traversals are extensionally
the same function of the key chain, for any shared name normalizer. -/
theorem client_server_path_agreement (kebab : String → String) (t : SchemaTree) :
    (∀ r ∈ fillClientFetcher kebab t [] [], r.path = derivedPath kebab r.keys) ∧
    (∀ (handlers : HandlerTree),
      ∀ r ∈ (fillRouter kebab (some t) handlers [] []).1,
        r.path = derivedPath kebab r.keys) ∧
    (∀ keys : List String, keys ≠ [] →
      derivedPath kebab keys = "/" ++ joinSlash (keys.map kebab)) ∧
    derivedPath kebab ([] : List String) = "" := by
  refine ⟨fun r hr => fillClientFetcher_path kebab t [] [] rfl r hr,
    fun handlers r hr => fillRouter_path kebab handlers (some t) [] [] rfl r hr,
    fun keys hk => ?_, rfl⟩
  cases keys with
  | nil => exact absurd rfl hk
  | cons a l => simp [derivedPath, pathJoin_cons]

/-- Witness for C1 at a concrete schema, handler tree and normalizer. -/
theorem client_server_path_agreement_witness :
    (⟨["users"], "get", "/users",
        { input := VSpec.null, output := VSpec.undef }⟩ : ClientReg).path
      = derivedPath kebabExample ["users"] ∧
    (⟨["users"], "get", "/users", some 2⟩ : RouteReg).path
      = derivedPath kebabExample ["users"] ∧
    derivedPath kebabExample ["userProfile"] = "/" ++ joinSlash ["user-profile"] :=
  ⟨(client_server_path_agreement kebabExample schemaEx).1 _ (List.Mem.head _),
    (client_server_path_agreement kebabExample schemaEx).2.1
      (.consTree "users" (.consFn "get" 2 .nil) .nil) _ (List.Mem.head _),
    by
      have h := (client_server_path_agreement kebabExample schemaEx).2.2.1
        ["userProfile"] (by simp)
      simpa [kebabExample] using h⟩

/-! ## Orphan handler entries (claim C8) -/

/-- C8 counterexample: with schema `{ users: { get } }` and handler tree
`{ typo: { get }, users: { get } }`, the orphan non-empty `typo` subtree
makes the registration traversal throw a TypeError (property read on
`undefined`) instead of being silently ignored, and the valid sibling
`users` entry is never registered: the traversal returns no
registrations and the thrown flag is set. -/
theorem c8_counterexample :
    fillRouter kebabExample (some schemaEx) handlersEx [] [] = ([], true) := by
  rfl

/-- C8 (amended): a handler-function entry whose key has no schema
endpoint (the key is absent from the schema, or maps to a subtree) is
silently skipped and the remaining entries of the handler tree register
normally; an orphan entry holding an empty subtree is likewise skipped;
but a non-empty handler subtree whose key has no schema node aborts the
whole registration call with a TypeError, registering none of its
entries. -/
theorem c8_amended (kebab : String → String) (s : SchemaTree)
    (name : String) (rest : HandlerTree) (names keys : List String) :
    (∀ (h : Nat), s.lookup name = none →
      fillRouter kebab (some s) (.consFn name h rest) names keys =
        fillRouter kebab (some s) rest names keys) ∧
    (∀ (h : Nat) (t : SchemaTree), s.lookup name = some (.tree t) →
      fillRouter kebab (some s) (.consFn name h rest) names keys =
        fillRouter kebab (some s) rest names keys) ∧
    (s.lookup name = none →
      fillRouter kebab (some s) (.consTree name .nil rest) names keys =
        fillRouter kebab (some s) rest names keys) ∧
    (∀ (ht : HandlerTree), ht ≠ .nil → s.lookup name = none →
      fillRouter kebab (some s) (.consTree name ht rest) names keys =
        ([], true)) := by
  refine ⟨fun h hl => by simp [fillRouter, hl],
    fun h t hl => by simp [fillRouter, hl],
    fun hl => by simp [fillRouter, hl],
    fun ht hne hl => ?_⟩
  cases ht with
  | nil => exact absurd rfl hne
  | consFn n2 h2 r2 => simp [fillRouter, hl]
  | consTree n2 c2 r2 => simp [fillRouter, hl]

/-- Witness for C8 (amended) at concrete trees. -/
theorem c8_amended_witness :
    fillRouter kebabExample (some schemaEx) (.consFn "typo" 7 .nil) [] [] =
      fillRouter kebabExample (some schemaEx) HandlerTree.nil [] [] :=
  (c8_amended kebabExample schemaEx "typo" .nil [] []).1 7 rfl

/-! ## Null-input endpoints and stray payloads (claim C2) -/

/-- C2 counterexample: for an endpoint with `input: null`, a GET request
carrying `__body=x` is deserialized after all (the result depends on the
transformer's deserializer) and the handler's first argument is the
deserialized value, not null. -/
theorem c2_counterexample :
    getInput reqGetWithBody VSpec.null trTag = .success (Json.str "x") ∧
    getInput reqGetWithBody VSpec.null trTag ≠
      getInput reqGetWithBody VSpec.null trNull ∧
    (handleRequest "get" epNullInput hNull none trTag reqGetWithBody).handlerCalledWith
      = some (Json.str "x", none) ∧
    Json.str "x" ≠ Json.null := by
  exact ⟨rfl, by decide, rfl, by decide⟩

/-- C2 (amended): for an endpoint with `input: null` the server performs
no missing-payload check and no validation; when no wire payload is
present the handler's first argument is null, but a present payload is
still deserialized and its value becomes the handler's first
argument. -/
theorem c2_amended (req : Req) (tr : Tr) :
    getInput req VSpec.null tr =
      .success (match wirePayload req with
        | some s => tr.deserialize s
        | none => Json.null) ∧
    (wirePayload req = none → getInput req VSpec.null tr = .success Json.null) := by
  constructor
  · cases hw : wirePayload req <;> simp [getInput, hw]
  · intro hw; simp [getInput, hw]

/-- Witness for C2 (amended) at a concrete request. -/
theorem c2_amended_witness :
    getInput reqGetNoBody VSpec.null trTag = .success Json.null :=
  (c2_amended reqGetNoBody trTag).2 rfl

/-! ## Missing payload checks (claim C3) -/

/-- C3 counterexample: an endpoint whose input is undefined-but-declared
(validation disabled) does not require a payload: a GET request without
`__body` is not rejected with 400; the handler runs with null input and
the request succeeds. -/
theorem c3_counterexample :
    handleRequest "get" epUndefInput hNull none trTag reqGetNoBody =
      ⟨⟨200, .text "s", none⟩, some (Json.null, none)⟩ ∧
    (handleRequest "get" epUndefInput hNull none trTag reqGetNoBody).response.status ≠ 400 ∧
    (handleRequest "get" epUndefInput hNull none trTag reqGetNoBody).handlerCalledWith ≠ none := by
  exact ⟨rfl, by decide, by decide⟩

/-- C3 (amended): only an endpoint with an actual input validator
requires a payload: for such an endpoint, a GET request whose `__body`
parameter is absent is answered 400 with the "No __body provided" error
and a non-GET request without a body with the "No body provided" error,
in both cases before any deserialization or validation (the result is
the same for every transformer and validator) and without invoking the
handler. -/
theorem c3_amended (method : String) (e : SchemaEndpoint) (v : Validator)
    (handler : Json → Option Json → Json)
    (getMetadata : Option (Req → Bool → Option Json)) (tr : Tr) (req : Req)
    (hin : e.input = .schema v) (hw : wirePayload req = none)
    (hmd : metadataBlocks e getMetadata req = false) :
    getInput req e.input tr =
      .failure 400 (.errObj
        (if req.method = "GET" then "No __body provided" else "No body provided")) ∧
    handleRequest method e handler getMetadata tr req =
      ⟨⟨400, .json (.errObj
        (if req.method = "GET" then "No __body provided" else "No body provided")),
          none⟩, none⟩ := by
  have h1 : getInput req e.input tr =
      .failure 400 (.errObj
        (if req.method = "GET" then "No __body provided" else "No body provided")) := by
    simp [getInput, hin, hw]
  exact ⟨h1, by simp [handleRequest, hmd, h1]⟩

/-- Witness for C3 (amended) at a concrete endpoint and request. -/
theorem c3_amended_witness :
    getInput reqGetNoBody (VSpec.schema vRequireName) trTag =
      .failure 400 (.errObj "No __body provided") := by
  have h := (c3_amended "get"
    { input := .schema vRequireName, output := .undef, isMetadataUsed := some false }
    vRequireName hNull none trTag reqGetNoBody rfl rfl rfl).1
  simpa using h

/-! ## Input validation failures (claim C6) -/

/-- C6: when the endpoint declares an input validator and the
deserialized payload fails it, the server responds 400 with exactly the
validator's issue list, one entry per violated constraint, each entry
carrying the issue's path and message (the projection map is the
identity on issues), and the handler is never invoked. -/
theorem c6_input_validation (method : String) (e : SchemaEndpoint) (v : Validator)
    (handler : Json → Option Json → Json)
    (getMetadata : Option (Req → Bool → Option Json)) (tr : Tr) (req : Req)
    (s : String) (issues : List Issue)
    (hin : e.input = .schema v) (hw : wirePayload req = some s)
    (hv : v (tr.deserialize s) = .err issues)
    (hmd : metadataBlocks e getMetadata req = false) :
    getInput req e.input tr = .failure 400 (.issueList issues) ∧
    (issues.map fun i => (⟨i.path, i.message⟩ : Issue)) = issues ∧
    (issues.map fun i => (⟨i.path, i.message⟩ : Issue)).length = issues.length ∧
    handleRequest method e handler getMetadata tr req =
      ⟨⟨400, .json (.issueList issues), none⟩, none⟩ := by
  have hmap : (issues.map fun i => (⟨i.path, i.message⟩ : Issue)) = issues := by
    induction issues with
    | nil => rfl
    | cons a l ih => cases a; simp [ih]
  have h1 : getInput req e.input tr = .failure 400 (.issueList issues) := by
    simp [getInput, hin, hw, hv, hmap]
  exact ⟨h1, hmap, by rw [hmap], by simp [handleRequest, hmd, h1]⟩

/-- Witness for C6 at a concrete endpoint, request and validator. -/
theorem c6_input_validation_witness :
    getInput reqGetWithBody (VSpec.schema vRequireName) trTag =
      .failure 400 (.issueList [⟨[.key "name"], "Required"⟩]) := by
  have h := (c6_input_validation "get"
    { input := .schema vRequireName, output := .undef, isMetadataUsed := some false }
    vRequireName hNull none trTag reqGetWithBody "x"
    [⟨[.key "name"], "Required"⟩] rfl rfl rfl rfl).1
  simpa using h

/-! ## Client missing-input check (claim C4) -/

/-- C4: a callable bound to an endpoint declaring an input validator,
called without an input value, rejects immediately with the
invalid-argument error, and no request is ever built (the fetch
capability cannot be invoked). -/
theorem c4_missing_input (v : Validator) (method entrypointUrl path : String)
    (baseInit : InitModel) (baseFetch : Nat) (tr : Tr) (initArg : Option InitModel) :
    clientCall (.schema v) method entrypointUrl path baseInit baseFetch tr none initArg =
      ⟨.invalidArgument "Input data argument not provided.", initArg⟩ ∧
    ∀ r, (clientCall (.schema v) method entrypointUrl path
        baseInit baseFetch tr none initArg).outcome ≠ .request r := by
  have h : clientCall (.schema v) method entrypointUrl path baseInit baseFetch tr
      none initArg =
      ⟨.invalidArgument "Input data argument not provided.", initArg⟩ := rfl
  exact ⟨h, fun r => by rw [h]; simp⟩

/-! ## GET/non-GET transport shape (claim C5) -/

/-- The reserved query string is never empty. -/
theorem body_query_ne_empty (s : String) : "__body=" ++ s ≠ "" := by
  intro h
  have h2 := congrArg String.data h
  simp [String.data_append] at h2

/-- C5: for a client call with a supplied input on an endpoint whose
declared input is not null (and passing the missing-input check): on GET
the serialized input appears only as the URL-encoded value of the
`__body` query parameter appended to the URL, the request body stays
unpopulated (no init declares one) and no Content-Type header is added;
on every other verb the serialized input becomes the request body, the
Content-Type header is set and no query string is appended. -/
theorem c5_transport_shape (inputDecl : VSpec) (method entrypointUrl path : String)
    (baseInit : InitModel) (baseFetch : Nat) (tr : Tr) (j : Json)
    (initArg : Option InitModel)
    (hdecl : inputDecl ≠ .null)
    (hpass : (inputDecl.isSchema && !jsTruthy j) = false)
    (hbase : baseInit.body = none)
    (hinit : initArg.bind InitModel.body = none) :
    (method = "get" →
      clientCall inputDecl method entrypointUrl path baseInit baseFetch tr
          (some j) initArg =
        ⟨.request
          { url := entrypointUrl ++ path ++
              ("?" ++ ("__body=" ++ encodeURIComponent (tr.serialize j)))
            method := method.toUpper
            headers := mergeKV baseInit.headers ((initArg.map InitModel.headers).getD [])
            body := none
            fetchUsed := (initArg.bind InitModel.fetch).getD baseFetch },
          initArg.map fun i => { i with fetch := none }⟩) ∧
    (method ≠ "get" →
      clientCall inputDecl method entrypointUrl path baseInit baseFetch tr
          (some j) initArg =
        ⟨.request
          { url := entrypointUrl ++ path
            method := method.toUpper
            headers := setKV
              (mergeKV baseInit.headers ((initArg.map InitModel.headers).getD []))
              "Content-Type" "application/json"
            body := some (tr.serialize j)
            fetchUsed := (initArg.bind InitModel.fetch).getD baseFetch },
          initArg.map fun i => { i with fetch := none }⟩) := by
  cases inputDecl with
  | null => exact absurd rfl hdecl
  | undef =>
      constructor
      · intro hm
        subst hm
        simp [clientCall, VSpec.isSchema, hbase, hinit, body_query_ne_empty,
          Option.orElse, String.append_empty]
      · intro hm
        simp [clientCall, VSpec.isSchema, hbase, hinit, hm, Option.orElse,
          String.append_empty]
  | schema v =>
      have hj : jsTruthy j = true := by
        simp [VSpec.isSchema] at hpass
        exact hpass
      constructor
      · intro hm
        subst hm
        simp [clientCall, VSpec.isSchema, jsTruthyOpt, hj, hbase, hinit,
          body_query_ne_empty, Option.orElse, String.append_empty]
      · intro hm
        simp [clientCall, VSpec.isSchema, jsTruthyOpt, hj, hbase, hinit, hm,
          Option.orElse, String.append_empty]

/-- Witness for C5 at a concrete endpoint and call. -/
theorem c5_transport_shape_witness :
    clientCall VSpec.undef "get" "http://h" "/p" {} 0 trTag
        (some (Json.num 1)) none =
      ⟨.request
        { url := "http://h" ++ "/p" ++
            ("?" ++ ("__body=" ++ encodeURIComponent (trTag.serialize (Json.num 1))))
          method := "get".toUpper
          headers := mergeKV (({} : InitModel)).headers
            ((Option.map InitModel.headers (none : Option InitModel)).getD [])
          body := none
          fetchUsed := ((none : Option InitModel).bind InitModel.fetch).getD 0 },
        Option.map (fun i => { i with fetch := none }) (none : Option InitModel)⟩ :=
  (c5_transport_shape VSpec.undef "get" "http://h" "/p" {} 0 trTag (Json.num 1) none
    (by intro h; cases h) rfl rfl rfl).1 rfl

/-! ## Init mutation on the caller's object (claim C10) -/

/-- C10 counterexample: a call on an endpoint with a declared input
validator, supplying a per-call init but no input value, rejects at the
missing-input check before the `delete init?.fetch` line, so the
caller's init keeps its fetch property — it is not deleted. -/
theorem c10_counterexample :
    (clientCall (.schema vRequireName) "get" "http://h" "/p" {} 0 trTag
        none (some initWithFetch)).callerInit = some initWithFetch ∧
    initWithFetch.fetch = some 5 ∧
    some initWithFetch ≠ some { initWithFetch with fetch := none } := by
  exact ⟨rfl, rfl, by decide⟩

/-- C10 (amended): for an endpoint whose declared input is null the
per-call init is shallow-copied, so the caller's object is left
unchanged; for any other endpoint, provided the call passes the
missing-input check, the fetch property is deleted from the caller's
own init object as an observable side effect. -/
theorem c10_amended (inputDecl : VSpec) (method entrypointUrl path : String)
    (baseInit : InitModel) (baseFetch : Nat) (tr : Tr)
    (inputArg : Option Json) (initArg : Option InitModel) :
    (inputDecl = VSpec.null →
      (clientCall inputDecl method entrypointUrl path baseInit baseFetch tr
        inputArg initArg).callerInit = initArg) ∧
    (inputDecl ≠ VSpec.null →
      (inputDecl.isSchema && !jsTruthyOpt inputArg) = false →
      (clientCall inputDecl method entrypointUrl path baseInit baseFetch tr
        inputArg initArg).callerInit =
          initArg.map fun i => { i with fetch := none }) := by
  constructor
  · intro hd
    subst hd
    simp [clientCall, VSpec.isSchema]
  · intro hd hpass
    cases inputDecl with
    | null => exact absurd rfl hd
    | undef =>
        cases inputArg with
        | none =>
            cases hm : method == "get" <;>
              simp [clientCall, VSpec.isSchema]
        | some j =>
            simp [clientCall, VSpec.isSchema]
    | schema v =>
        have hj : jsTruthyOpt inputArg = true := by
          simp [VSpec.isSchema] at hpass
          exact hpass
        cases inputArg with
        | none => simp [jsTruthyOpt] at hj
        | some j =>
            simp only [jsTruthyOpt] at hj
            simp [clientCall, VSpec.isSchema, jsTruthyOpt, hj]

/-- Witness for C10 (amended) at a concrete call that proceeds. -/
theorem c10_amended_witness :
    (clientCall VSpec.undef "get" "http://h" "/p" {} 0 trTag none
        (some initWithFetch)).callerInit =
      Option.map (fun i => { i with fetch := none }) (some initWithFetch) :=
  (c10_amended VSpec.undef "get" "http://h" "/p" {} 0 trTag none
    (some initWithFetch)).2 (by intro h; cases h) rfl

/-! ## Transport errors (claim C7) -/

/-- C7: a non-2xx response makes the call reject with a transport error
whose fields are the verb, the derived path, the numeric status, and a
description equal to the response body text when non-empty and otherwise
the status text; the error message is the fixed function of those four
fields given here, and it mentions all four. -/
theorem c7_transport_error (method path : String) (outputDecl : VSpec) (tr : Tr)
    (resp : RespModel) (hfail : resp.ok = false) :
    interpretResponse method path outputDecl tr resp =
      .httpError ⟨method, path, resp.status,
        if resp.text = "" then resp.statusText else resp.text⟩ ∧
    HttpError.message ⟨method, path, resp.status,
        if resp.text = "" then resp.statusText else resp.text⟩ =
      "Fetch at " ++ method.toUpper ++ " " ++ path ++ " failed, status " ++
        toString resp.status ++ ", description: " ++ squote ++
        (if resp.text = "" then resp.statusText else resp.text) ++ squote ∧
    (∃ p1 p2 p3 p4 p5 : String,
      HttpError.message ⟨method, path, resp.status,
          if resp.text = "" then resp.statusText else resp.text⟩ =
        p1 ++ (method.toUpper ++ (p2 ++ (path ++ (p3 ++ (toString resp.status ++
          (p4 ++ ((if resp.text = "" then resp.statusText else resp.text) ++ p5)))))))) := by
  refine ⟨by simp [interpretResponse, hfail], rfl,
    ⟨"Fetch at ", " ", " failed, status ", ", description: " ++ squote, squote, ?_⟩⟩
  simp [HttpError.message, String.append_assoc]

/-- Witness for C7 at a concrete failed response. -/
theorem c7_transport_error_witness :
    interpretResponse "get" "/users" VSpec.undef trTag ⟨false, 404, "Not Found", ""⟩ =
      .httpError ⟨"get", "/users", 404, "Not Found"⟩ := by
  have h := (c7_transport_error "get" "/users" VSpec.undef trTag
    ⟨false, 404, "Not Found", ""⟩ rfl).1
  simpa using h

/-! ## JSON round trip (claim C9): string bodies -/

theorem parseStringBody_close (cs : List Char) :
    parseStringBody (qc :: cs) = some ([], cs) := by
  rw [parseStringBody.eq_def]
  simp

theorem parseStringBody_bs (e c2 : Char) (l r tail : List Char)
    (he : unescChar e = some c2) (htail : parseStringBody tail = some (l, r)) :
    parseStringBody (bs :: e :: tail) = some (c2 :: l, r) := by
  have h1 : ¬ (bs = qc) := by decide
  rw [parseStringBody.eq_def]
  simp [h1, he, htail]

theorem parseStringBody_lit (c : Char) (l r tail : List Char)
    (h1 : c ≠ qc) (h2 : c ≠ bs)
    (htail : parseStringBody tail = some (l, r)) :
    parseStringBody (c :: tail) = some (c :: l, r) := by
  rw [parseStringBody.eq_def]
  simp [h1, h2, htail]

/-- Parsing the escaped body of a string recovers exactly its
characters. -/
theorem parseStringBody_escList : ∀ (cs rest : List Char),
    parseStringBody (escList cs ++ qc :: rest) = some (cs, rest)
  | [], rest => by simpa [escList] using parseStringBody_close rest
  | c :: cs, rest => by
    have ih := parseStringBody_escList cs rest
    simp only [escList, List.append_assoc]
    by_cases h1 : c = qc
    · subst h1
      rw [(by decide : escChar qc = [bs, qc])]
      exact parseStringBody_bs qc qc cs rest _ (by decide) ih
    · by_cases h2 : c = bs
      · subst h2
        rw [(by decide : escChar bs = [bs, bs])]
        exact parseStringBody_bs bs bs cs rest _ (by decide) ih
      · by_cases h3 : c = Char.ofNat 10
        · subst h3
          rw [(by decide : escChar (Char.ofNat 10) = [bs, 'n'])]
          exact parseStringBody_bs 'n' (Char.ofNat 10) cs rest _ (by decide) ih
        · by_cases h4 : c = Char.ofNat 9
          · subst h4
            rw [(by decide : escChar (Char.ofNat 9) = [bs, 't'])]
            exact parseStringBody_bs 't' (Char.ofNat 9) cs rest _ (by decide) ih
          · by_cases h5 : c = Char.ofNat 13
            · subst h5
              rw [(by decide : escChar (Char.ofNat 13) = [bs, 'r'])]
              exact parseStringBody_bs 'r' (Char.ofNat 13) cs rest _ (by decide) ih
            · by_cases h6 : c = Char.ofNat 8
              · subst h6
                rw [(by decide : escChar (Char.ofNat 8) = [bs, 'b'])]
                exact parseStringBody_bs 'b' (Char.ofNat 8) cs rest _ (by decide) ih
              · by_cases h7 : c = Char.ofNat 12
                · subst h7
                  rw [(by decide : escChar (Char.ofNat 12) = [bs, 'f'])]
                  exact parseStringBody_bs 'f' (Char.ofNat 12) cs rest _ (by decide) ih
                · rw [show escChar c = [c] from by
                    simp [escChar, h1, h2, h3, h4, h5, h6, h7]]
                  exact parseStringBody_lit c cs rest _ h1 h2 ih

/-! ## JSON round trip (claim C9): numerals -/

theorem digitChar_isDigit (d : Nat) (h : d < 10) :
    (Char.ofNat (48 + d)).isDigit = true := by
  interval_cases d <;> decide

theorem digitChar_toNat (d : Nat) (h : d < 10) :
    (Char.ofNat (48 + d)).toNat = 48 + d := by
  interval_cases d <;> decide

theorem natDigits_ne_nil (n : Nat) : natDigits n ≠ [] := by
  rw [natDigits.eq_def]
  split <;> simp

theorem natDigits_all_digit (n : Nat) : ∀ c ∈ natDigits n, c.isDigit = true := by
  induction n using Nat.strong_induction_on with
  | _ n ih =>
    rw [natDigits.eq_def]
    split
    · rename_i h
      intro c hc
      simp at hc
      subst hc
      exact digitChar_isDigit n h
    · rename_i h
      intro c hc
      simp [List.mem_append] at hc
      rcases hc with hc | hc
      · exact ih (n / 10) (Nat.div_lt_self (by omega) (by omega)) c hc
      · subst hc
        exact digitChar_isDigit (n % 10) (Nat.mod_lt _ (by omega))

theorem digitsVal_append : ∀ (l1 l2 : List Char) (acc : Nat),
    digitsVal acc (l1 ++ l2) = digitsVal (digitsVal acc l1) l2
  | [], _, _ => rfl
  | c :: l, l2, acc => digitsVal_append l l2 (acc * 10 + (c.toNat - 48))

theorem digitsVal_singleton (a : Nat) (c : Char) :
    digitsVal a [c] = a * 10 + (c.toNat - 48) := rfl

theorem digitsVal_natDigits (n : Nat) : ∀ acc,
    digitsVal acc (natDigits n) = acc * 10 ^ (natDigits n).length + n := by
  induction n using Nat.strong_induction_on with
  | _ n ih =>
    intro acc
    rw [natDigits.eq_def]
    split
    · rename_i h
      rw [digitsVal_singleton, digitChar_toNat n h, List.length_singleton, pow_one]
      omega
    · rename_i h
      rw [digitsVal_append]
      rw [ih (n / 10) (Nat.div_lt_self (by omega) (by omega))]
      rw [digitsVal_singleton, digitChar_toNat (n % 10) (Nat.mod_lt _ (by omega)),
        List.length_append, List.length_singleton, pow_succ, ← mul_assoc]
      have hm := Nat.div_add_mod n 10
      generalize acc * 10 ^ (natDigits (n / 10)).length = A
      omega

theorem digitsVal_natDigits_zero (n : Nat) : digitsVal 0 (natDigits n) = n := by
  have h := digitsVal_natDigits n 0
  simpa using h

theorem takeDigits_all (l r : List Char) (hl : ∀ c ∈ l, c.isDigit = true)
    (hr : noDigitStart r = true) : takeDigits (l ++ r) = (l, r) := by
  induction l with
  | nil =>
    simp only [List.nil_append]
    cases r with
    | nil => rfl
    | cons c r2 =>
      simp [noDigitStart] at hr
      simp [takeDigits, hr]
  | cons c l2 ih =>
    have hc := hl c (by simp)
    simp [takeDigits, hc, ih fun d hd => hl d (by simp [hd])]

/-- Parsing the printed decimal of an integer recovers it, provided the
remaining input does not begin with a digit. -/
theorem parseNumber_intChars (n : Int) (rest : List Char)
    (hrest : noDigitStart rest = true) :
    parseNumber (intChars n ++ rest) = some (.num n, rest) := by
  by_cases hn : n < 0
  · have hi : intChars n = '-' :: natDigits n.natAbs := by simp [intChars, hn]
    rw [hi, List.cons_append]
    have hd := takeDigits_all (natDigits n.natAbs) rest (natDigits_all_digit _) hrest
    have hne := natDigits_ne_nil n.natAbs
    have h1 : parseNumber ('-' :: (natDigits n.natAbs ++ rest)) =
        some (Json.num (-(Int.ofNat (digitsVal 0 (natDigits n.natAbs)))), rest) := by
      simp [parseNumber, hd, hne]
    rw [h1, digitsVal_natDigits_zero]
    have hint : -(Int.ofNat n.natAbs) = n := by
      rw [Int.ofNat_eq_natCast]; omega
    rw [hint]
  · have hi : intChars n = natDigits n.toNat := by simp [intChars, hn]
    rw [hi]
    obtain ⟨c, cs, hc⟩ : ∃ c cs, natDigits n.toNat = c :: cs := by
      cases h : natDigits n.toNat with
      | nil => exact absurd h (natDigits_ne_nil _)
      | cons a b => exact ⟨a, b, rfl⟩
    have hcd : c.isDigit = true := natDigits_all_digit n.toNat c (by rw [hc]; simp)
    have hcm : c ≠ '-' := by intro he; rw [he] at hcd; simp at hcd
    have hd := takeDigits_all (natDigits n.toNat) rest (natDigits_all_digit _) hrest
    rw [hc] at hd ⊢
    rw [List.cons_append] at hd ⊢
    have h1 : parseNumber (c :: (cs ++ rest)) =
        some (Json.num (Int.ofNat (digitsVal 0 (c :: cs))), rest) := by
      simp [parseNumber, hcm, hd]
    rw [h1, show (c :: cs) = natDigits n.toNat from hc.symm, digitsVal_natDigits_zero]
    have hint : Int.ofNat n.toNat = n := by
      rw [Int.ofNat_eq_natCast]; omega
    rw [hint]

/-! ## JSON round trip (claim C9): assembling the parser -/

theorem string_eta (s : String) : String.mk s.data = s := rfl

theorem intChars_ne_nil (n : Int) : intChars n ≠ [] := by
  by_cases hn : n < 0 <;> simp [intChars, hn, natDigits_ne_nil]

/-- The first character of a printed JSON value is never a closing
bracket. -/
theorem printJson_head (j : Json) :
    ∃ c cs, printJson j = c :: cs ∧ c ≠ ']' := by
  cases j with
  | null => exact ⟨'n', _, rfl, by decide⟩
  | bool b =>
      cases b with
      | false => exact ⟨'f', _, rfl, by decide⟩
      | true => exact ⟨'t', _, rfl, by decide⟩
  | num n =>
      by_cases hn : n < 0
      · refine ⟨'-', natDigits n.natAbs, ?_, by decide⟩
        simp [printJson, intChars, hn]
      · obtain ⟨c, cs, hc⟩ : ∃ c cs, natDigits n.toNat = c :: cs := by
          cases h : natDigits n.toNat with
          | nil => exact absurd h (natDigits_ne_nil _)
          | cons a b => exact ⟨a, b, rfl⟩
        have hcd : c.isDigit = true := natDigits_all_digit n.toNat c (by rw [hc]; simp)
        refine ⟨c, cs, ?_, ?_⟩
        · simp [printJson, intChars, hn, hc]
        · intro he; rw [he] at hcd; exact absurd hcd (by decide)
  | str s => exact ⟨qc, _, rfl, by decide⟩
  | arr xs => exact ⟨'[', _, rfl, by decide⟩
  | obj fs => exact ⟨lb, _, rfl, by decide⟩

theorem noDigitStart_elemsTail (t : JsonList) (rest : List Char) :
    noDigitStart (printElemsTail t ++ rest) = true := by
  cases t <;> rfl

theorem noDigitStart_fieldsTail (t : JsonFields) (rest : List Char) :
    noDigitStart (printFieldsTail t ++ rest) = true := by
  cases t <;> rfl

theorem jsize_pos (j : Json) : 1 ≤ jsize j := by
  cases j <;> (simp [jsize]; try omega)

theorem lsize_pos (xs : JsonList) : 1 ≤ lsize xs := by
  cases xs <;> (simp [lsize]; try omega)

theorem fsize_pos (fs : JsonFields) : 1 ≤ fsize fs := by
  cases fs <;> (simp [fsize]; try omega)

/-- Parsing a printed integer value. -/
theorem parseJson_succ_num (n : Int) (fuel : Nat) (rest : List Char)
    (hrest : noDigitStart rest = true) :
    parseJson (fuel + 1) (intChars n ++ rest) = some (.num n, rest) := by
  have hp := parseNumber_intChars n rest hrest
  by_cases hn : n < 0
  · have hi : intChars n = '-' :: natDigits n.natAbs := by simp [intChars, hn]
    rw [hi, List.cons_append] at hp ⊢
    simp [parseJson, qc, lb, hp]
  · have hi : intChars n = natDigits n.toNat := by simp [intChars, hn]
    rw [hi] at hp ⊢
    obtain ⟨c, cs, hc⟩ : ∃ c cs, natDigits n.toNat = c :: cs := by
      cases h : natDigits n.toNat with
      | nil => exact absurd h (natDigits_ne_nil _)
      | cons a b => exact ⟨a, b, rfl⟩
    have hcd : c.isDigit = true := natDigits_all_digit n.toNat c (by rw [hc]; simp)
    have h1 : c ≠ 'n' := by intro he; rw [he] at hcd; exact absurd hcd (by decide)
    have h2 : c ≠ 't' := by intro he; rw [he] at hcd; exact absurd hcd (by decide)
    have h3 : c ≠ 'f' := by intro he; rw [he] at hcd; exact absurd hcd (by decide)
    have h4 : c ≠ qc := by intro he; rw [he] at hcd; exact absurd hcd (by decide)
    have h5 : c ≠ '[' := by intro he; rw [he] at hcd; exact absurd hcd (by decide)
    have h6 : c ≠ lb := by intro he; rw [he] at hcd; exact absurd hcd (by decide)
    rw [hc, List.cons_append] at hp ⊢
    simp [parseJson, h1, h2, h3, h4, h5, h6, hcd, hp]

mutual

/-- Parsing the printed form of a value recovers it (with enough fuel,
when the remaining input does not begin with a digit). -/
theorem parse_print_json : ∀ (j : Json) (fuel : Nat) (rest : List Char),
    jsize j ≤ fuel → noDigitStart rest = true →
    parseJson fuel (printJson j ++ rest) = some (j, rest)
  | j, 0, _, hf, _ => absurd (le_trans (jsize_pos j) hf) (by omega)
  | .null, _ + 1, _, _, _ => rfl
  | .bool true, _ + 1, _, _, _ => rfl
  | .bool false, _ + 1, _, _, _ => rfl
  | .num n, fuel + 1, rest, _, hrest => parseJson_succ_num n fuel rest hrest
  | .str s, fuel + 1, rest, _, _ => by
      have hps := parseStringBody_escList s.data rest
      simp only [qc] at hps
      simp only [printJson, qc, List.cons_append, List.append_assoc,
        List.singleton_append]
      simp [parseJson, qc, hps, string_eta]
  | .arr xs, fuel + 1, rest, hf, _ => by
      have h2 := parse_print_elems xs fuel rest (by simp [jsize] at hf; omega)
      simp only [printJson, List.cons_append]
      simp [parseJson, qc, h2]
  | .obj fs, fuel + 1, rest, hf, _ => by
      have h2 := parse_print_fields fs fuel rest (by simp [jsize] at hf; omega)
      simp only [printJson, List.cons_append]
      simp [parseJson, qc, lb, h2]

/-- Parsing printed array elements. -/
theorem parse_print_elems : ∀ (xs : JsonList) (fuel : Nat) (rest : List Char),
    lsize xs ≤ fuel →
    parseElems fuel (printElems xs ++ rest) = some (xs, rest)
  | xs, 0, _, hf => absurd (le_trans (lsize_pos xs) hf) (by omega)
  | .nil, _ + 1, _, _ => rfl
  | .cons h t, fuel + 1, rest, hf => by
      obtain ⟨c, cs, hc, hcne⟩ := printJson_head h
      have h1 := parse_print_json h fuel (printElemsTail t ++ rest)
        (by simp [lsize] at hf; omega) (noDigitStart_elemsTail t rest)
      have h2 := parse_print_elemsTail t fuel rest (by simp [lsize] at hf; omega)
      simp only [printElems, List.append_assoc]
      rw [hc] at h1 ⊢
      simp only [List.cons_append] at h1 ⊢
      simp [parseElems, hcne, h1, h2]

/-- Parsing the printed remaining array elements. -/
theorem parse_print_elemsTail : ∀ (t : JsonList) (fuel : Nat) (rest : List Char),
    lsize t ≤ fuel →
    parseElemsTail fuel (printElemsTail t ++ rest) = some (t, rest)
  | t, 0, _, hf => absurd (le_trans (lsize_pos t) hf) (by omega)
  | .nil, _ + 1, _, _ => rfl
  | .cons h t, fuel + 1, rest, hf => by
      have h1 := parse_print_json h fuel (printElemsTail t ++ rest)
        (by simp [lsize] at hf; omega) (noDigitStart_elemsTail t rest)
      have h2 := parse_print_elemsTail t fuel rest (by simp [lsize] at hf; omega)
      simp only [printElemsTail, List.cons_append, List.append_assoc]
      simp [parseElemsTail, h1, h2]

/-- Parsing printed object fields. -/
theorem parse_print_fields : ∀ (fs : JsonFields) (fuel : Nat) (rest : List Char),
    fsize fs ≤ fuel →
    parseFields fuel (printFields fs ++ rest) = some (fs, rest)
  | fs, 0, _, hf => absurd (le_trans (fsize_pos fs) hf) (by omega)
  | .nil, _ + 1, _, _ => rfl
  | .cons k v t, fuel + 1, rest, hf => by
      cases fuel with
      | zero =>
          have hv := jsize_pos v
          have ht := fsize_pos t
          simp [fsize] at hf
          omega
      | succ f2 =>
          have hv : jsize v ≤ f2 := by
            have ht := fsize_pos t
            simp [fsize] at hf
            omega
          have ht2 : fsize t ≤ f2 := by
            have hv2 := jsize_pos v
            simp [fsize] at hf
            omega
          have hps := parseStringBody_escList k.data
            (':' :: (printJson v ++ (printFieldsTail t ++ rest)))
          simp only [qc] at hps
          have h1 := parse_print_json v f2 (printFieldsTail t ++ rest)
            hv (noDigitStart_fieldsTail t rest)
          have h2 := parse_print_fieldsTail t f2 rest ht2
          simp only [printFields, qc, List.cons_append, List.append_assoc]
          simp [parseFields, parseField1, qc, rb, hps, h1, h2, string_eta]

/-- Parsing the printed remaining object fields. -/
theorem parse_print_fieldsTail : ∀ (t : JsonFields) (fuel : Nat) (rest : List Char),
    fsize t ≤ fuel →
    parseFieldsTail fuel (printFieldsTail t ++ rest) = some (t, rest)
  | t, 0, _, hf => absurd (le_trans (fsize_pos t) hf) (by omega)
  | .nil, _ + 1, _, _ => rfl
  | .cons k v t, fuel + 1, rest, hf => by
      cases fuel with
      | zero =>
          have hv := jsize_pos v
          have ht := fsize_pos t
          simp [fsize] at hf
          omega
      | succ f2 =>
          have hv : jsize v ≤ f2 := by
            have ht := fsize_pos t
            simp [fsize] at hf
            omega
          have ht2 : fsize t ≤ f2 := by
            have hv2 := jsize_pos v
            simp [fsize] at hf
            omega
          have hps := parseStringBody_escList k.data
            (':' :: (printJson v ++ (printFieldsTail t ++ rest)))
          simp only [qc] at hps
          have h1 := parse_print_json v f2 (printFieldsTail t ++ rest)
            hv (noDigitStart_fieldsTail t rest)
          have h2 := parse_print_fieldsTail t f2 rest ht2
          simp only [printFieldsTail, qc, List.cons_append, List.append_assoc]
          simp [parseFieldsTail, parseField1, qc, rb, hps, h1, h2, string_eta]

end

/-! ## JSON round trip (claim C9): fuel bounds -/

mutual

theorem jsize_le_print : ∀ (j : Json), jsize j ≤ 2 * (printJson j).length
  | .null => by simp [jsize, printJson]
  | .bool true => by simp [jsize, printJson]
  | .bool false => by simp [jsize, printJson]
  | .num n => by
      have h : intChars n ≠ [] := intChars_ne_nil n
      have h2 : 1 ≤ (intChars n).length := by
        cases hI : intChars n with
        | nil => exact absurd hI h
        | cons a b => simp
      simp [jsize, printJson]
      omega
  | .str s => by simp [jsize, printJson]; omega
  | .arr xs => by
      have h := lsize_le_elems xs
      simp [jsize, printJson]
      omega
  | .obj fs => by
      have h := fsize_le_fields fs
      simp [jsize, printJson]
      omega

theorem lsize_le_elems : ∀ (xs : JsonList), lsize xs ≤ 2 * (printElems xs).length
  | .nil => by simp [lsize, printElems]
  | .cons h t => by
      have h1 := jsize_le_print h
      have h2 := lsize_succ_le_tail t
      simp [lsize, printElems]
      omega

theorem lsize_succ_le_tail : ∀ (t : JsonList),
    lsize t + 1 ≤ 2 * (printElemsTail t).length
  | .nil => by simp [lsize, printElemsTail]
  | .cons h t => by
      have h1 := jsize_le_print h
      have h2 := lsize_succ_le_tail t
      simp [lsize, printElemsTail]
      omega

theorem fsize_le_fields : ∀ (fs : JsonFields), fsize fs ≤ 2 * (printFields fs).length
  | .nil => by simp [fsize, printFields]
  | .cons k v t => by
      have h1 := jsize_le_print v
      have h2 := fsize_succ_le_fieldsTail t
      simp [fsize, printFields]
      omega

theorem fsize_succ_le_fieldsTail : ∀ (t : JsonFields),
    fsize t + 1 ≤ 2 * (printFieldsTail t).length
  | .nil => by simp [fsize, printFieldsTail]
  | .cons k v t => by
      have h1 := jsize_le_print v
      have h2 := fsize_succ_le_fieldsTail t
      simp [fsize, printFieldsTail]
      omega

end

/-! ## JSON round trip (claim C9): the claim -/

/-- C9: for every supported value (one the default JSON transformer can
represent), deserializing its serialization yields the value back:
the default transformer's serialize and deserialize are mutual inverses
on supported values. -/
theorem json_roundtrip (x : Json) (_hx : supported x = true) :
    jsonTransformer.deserialize (jsonTransformer.serialize x) = some x := by
  have hb : jsize x ≤ 2 * (printJson x).length + 2 :=
    le_trans (jsize_le_print x) (by omega)
  have h := parse_print_json x (2 * (printJson x).length + 2) [] hb rfl
  rw [List.append_nil] at h
  simp [jsonTransformer, h]

/-- Witness for C9 at a concrete supported value. -/
theorem json_roundtrip_witness :
    supported (Json.obj (.cons "a" (.num (-12))
      (.cons "b" (.arr (.cons (.str "x") (.cons .null .nil))) .nil))) = true ∧
    jsonTransformer.deserialize (jsonTransformer.serialize
        (Json.obj (.cons "a" (.num (-12))
          (.cons "b" (.arr (.cons (.str "x") (.cons .null .nil))) .nil)))) =
      some (Json.obj (.cons "a" (.num (-12))
        (.cons "b" (.arr (.cons (.str "x") (.cons .null .nil))) .nil))) :=
  ⟨by decide, json_roundtrip _ (by decide)⟩

end Acrpc
